import Mathlib

/-!
# Verification of the yETH claim-flow aggregation and tab selection

Shallow embedding of the computational parts of
`src/components/bootstrapViews/Claim.tsx` (pro-rata incentive aggregation,
claim batching, selection updates) and of the tab-selection logic of the
main `YETH` page.

Modelling conventions:
* JS `bigint` is modelled by `Int`; `bigint` division truncates toward
  zero, which is `Int.tdiv`.
* JS `number` is modelled by `ℚ` (exact rational arithmetic standing in
  for IEEE doubles; every `number` computation of the source is carried
  over expression-by-expression).
* JS strings are modelled by `String`; the external `toAddress`
  checksummer is the identity on the already-canonical address strings
  used here, and `encodeFunctionData(claim_incentive, args)` is modelled
  by the argument triple itself (both come from external libraries).
-/

namespace YEth

/-- Token metadata (`TTokenInfo` from `contexts/useTokenList`), the fields
used by the claim flow. -/
structure TTokenInfo where
  address : String
  symbol : String
  decimals : Nat
deriving DecidableEq

/-- `TNormalizedBN` from the web-lib: a raw `bigint` together with its
normalized `number` value. -/
structure TNormalizedBN where
  raw : Int
  normalized : ℚ
deriving DecidableEq

/-- `toNormalizedBN` from the web-lib: pairs a raw value with
`raw / 10^decimals`. -/
def toNormalizedBN (raw : Int) (decimals : Nat) : TNormalizedBN :=
  ⟨raw, (raw : ℚ) / (10 : ℚ) ^ decimals⟩

/-- One entry of `groupIncentiveHistory.protocols[p].incentives`, with the
fields read by `Claim`: the USD value of the whole incentive (a JS
`number`), the raw token amount (a JS `bigint`), the incentive token's
metadata, the incentive token's address (the `incentive` field) and the
owning protocol's display name. -/
structure TIncentive where
  protocolName : String
  value : ℚ
  amount : Int
  incentiveToken : Option TTokenInfo
  incentive : String
deriving DecidableEq

/-- The per-protocol entry of `groupIncentiveHistory.protocols`. -/
structure TProtocolIncentives where
  incentives : List TIncentive
deriving DecidableEq

/-- One `(target, callData)` pair for the multicall; the `callData` of the
source is `encodeFunctionData(BOOTSTRAP_ABI, 'claim_incentive',
[protocol, incentive, claimant])`, modelled by its three arguments. -/
structure MulticallCall where
  target : String
  protocolArg : String
  incentiveArg : String
  claimantArg : String
deriving DecidableEq

/-- `TClaimDetails` from `Claim.tsx`. -/
structure TClaimDetails where
  id : String
  protocolName : String
  value : ℚ
  amount : TNormalizedBN
  token : Option TTokenInfo
  isSelected : Bool
  multicall : MulticallCall
deriving DecidableEq

/-- An entry of `claimedIncentives`; only its `id` field is read by the
aggregation. -/
structure TClaimedIncentive where
  id : String
deriving DecidableEq

/-- The inputs of the aggregation `useEffect` of `Claim` (its dependency
list): `voteData.winners`, `groupIncentiveHistory.protocols` (an
association list standing for the JS dictionary), `voteData.votesUsed`,
`totalVotes`, `claimedIncentives` (`none` while still loading), the
connected `address` and `process.env.BOOTSTRAP_ADDRESS`. -/
structure AggregationInput where
  winners : List String
  protocols : List (String × TProtocolIncentives)
  votesUsedRaw : Int
  votesUsedNormalized : Option ℚ
  totalVotes : TNormalizedBN
  claimedIncentives : Option (List TClaimedIncentive)
  address : String
  bootstrapAddress : String

/-- The composite id `` `${protocol}-${incentive.incentive}-${toAddress(address)}` ``. -/
def incentiveId (protocol : String) (inc : TIncentive) (address : String) : String :=
  protocol ++ "-" ++ inc.incentive ++ "-" ++ address

/-- `incentive?.incentiveToken?.decimals || 18`: the `||` of the source
also replaces a present but zero `decimals` by 18. -/
def incentiveDecimals (inc : TIncentive) : Nat :=
  match inc.incentiveToken with
  | none => 18
  | some t => if t.decimals = 0 then 18 else t.decimals

/-- `valueOfThis`: `incentive.value * Number(voteData.votesUsed.normalized || 0)
/ Number(totalVotes.normalized)` — JS `number` arithmetic on normalized values. -/
def valueOfThis (inp : AggregationInput) (inc : TIncentive) : ℚ :=
  inc.value * (inp.votesUsedNormalized.getD 0) / inp.totalVotes.normalized

/-- `amountOfThis`: `toNormalizedBN(incentive.amount * voteData.votesUsed.raw
/ totalVotes.raw, incentive?.incentiveToken?.decimals || 18)` — `bigint`
arithmetic (truncating division) on raw token units. -/
def amountOfThis (inp : AggregationInput) (inc : TIncentive) : TNormalizedBN :=
  toNormalizedBN (Int.tdiv (inc.amount * inp.votesUsedRaw) inp.totalVotes.raw)
    (incentiveDecimals inc)

/-- The record pushed onto `claimData` for one incentive of one winning
protocol (lines 299–314 of `Claim.tsx`). -/
def mkClaimDetails (inp : AggregationInput) (protocol : String) (inc : TIncentive) :
    TClaimDetails where
  id := incentiveId protocol inc inp.address
  protocolName := inc.protocolName
  value := valueOfThis inp inc
  amount := amountOfThis inp inc
  token := inc.incentiveToken
  isSelected := true
  multicall := ⟨inp.bootstrapAddress, protocol, inc.incentive, inp.address⟩

/-- The body of the inner `for (const incentive of ...)` loop, acting on the
accumulator `(_totalIncentiveValue, claimData)`:
skip if the id is already in `claimData`; if the id is in
`claimedIncentives`, only add `valueOfThis` to the total; otherwise push
the record and add `valueOfThis` to the total. -/
def processIncentive (inp : AggregationInput) (claimed : List TClaimedIncentive)
    (protocol : String) (acc : ℚ × List TClaimDetails) (inc : TIncentive) :
    ℚ × List TClaimDetails :=
  let id := incentiveId protocol inc inp.address
  if (acc.2.find? (fun item => item.id == id)).isSome then acc
  else if (claimed.find? (fun item => item.id == id)).isSome then
    (acc.1 + valueOfThis inp inc, acc.2)
  else
    (acc.1 + valueOfThis inp inc, acc.2 ++ [mkClaimDetails inp protocol inc])

/-- The body of the outer `for (const protocol of voteData.winners)` loop:
look the protocol up in `groupIncentiveHistory.protocols` and `continue`
when it is missing. -/
def processProtocol (inp : AggregationInput) (claimed : List TClaimedIncentive)
    (acc : ℚ × List TClaimDetails) (protocol : String) : ℚ × List TClaimDetails :=
  match List.lookup protocol inp.protocols with
  | none => acc
  | some pr => pr.incentives.foldl (processIncentive inp claimed protocol) acc

/-- The aggregation `useEffect` of `Claim` (lines 247–327): `none` models
the early `return` (no state update) taken when `totalVotes.raw === 0n` or
`claimedIncentives` is still missing; otherwise the result is the pair
`(_totalIncentiveValue, claimData)` that is written to the component
state. -/
def aggregate (inp : AggregationInput) : Option (ℚ × List TClaimDetails) :=
  match inp.claimedIncentives with
  | none => none
  | some claimed =>
    if inp.totalVotes.raw = 0 then none
    else some (inp.winners.foldl (processProtocol inp claimed) (0, []))

/-- `totalToClaim` of the `Claim` component (line 335): the sum of the
values of all claimable incentives. -/
def totalToClaim (l : List TClaimDetails) : ℚ :=
  l.foldl (fun total inc => total + inc.value) 0

/-- `totalToClaim` of `ClaimConfirmationModal` (lines 68–72): the sum of
the values of the *selected* claimable incentives. -/
def selectedTotalToClaim (l : List TClaimDetails) : ℚ :=
  (l.filter (fun inc => inc.isSelected)).foldl (fun total inc => total + inc.value) 0

/-- The `multicallData` built by `onClaim` (lines 77–91): filter the
selected incentives, then map each to its `(target, callData)` pair. -/
def onClaimBatch (l : List TClaimDetails) : List MulticallCall :=
  (l.filter (fun inc => inc.isSelected)).map (fun inc => inc.multicall)

/-- Stated from the specification's words, for comparison with
`onClaimBatch`: each incentive with `isSelected` true contributes its
call, in list order, and incentives with `isSelected` false contribute
nothing. -/
def batchOfSelected : List TClaimDetails → List MulticallCall
  | [] => []
  | inc :: rest =>
    if inc.isSelected then inc.multicall :: batchOfSelected rest
    else batchOfSelected rest

/-- `onUpdateIncentive` (lines 347–355): find the index of the record with
the given id (`findIndex`); return the list unchanged when it is `-1`,
otherwise replace that record's `isSelected` flag. -/
def onUpdateIncentive (l : List TClaimDetails) (id : String) (sel : Bool) :
    List TClaimDetails :=
  match l.findIdx? (fun item => item.id == id) with
  | none => l
  | some index =>
    match l[index]? with
    | none => l
    | some r => l.set index { r with isSelected := sel }

/-- Stated from the specification's words, for comparison with
`valueOfThis`: the claimable value as it would be if it were "computed in
integer (fixed-point) arithmetic on raw token units", i.e. with the same
truncating `bigint` division the source uses for `amountOfThis`. -/
def valueOfThisIntSpec (valueRaw votesUsedRaw totalVotesRaw : Int) : Int :=
  Int.tdiv (valueRaw * votesUsedRaw) totalVotesRaw

end YEth

namespace YEth

/-! ## Tab selection (`YETH` page, `src/unnamed/part_000`) -/

/-- One entry of the `tabs` constant. -/
structure Tab where
  value : Nat
  label : String
  slug : String
deriving DecidableEq

/-- `tabs[0]`, the default `Deposit` tab (the initial `useState` value). -/
def tab0 : Tab := ⟨0, "Deposit", "deposit"⟩

/-- The `tabs` constant of the `YETH` page. -/
def tabs : List Tab :=
  [tab0, ⟨1, "Withdraw", "withdraw"⟩, ⟨2, "Stake/Unstake", "stake-unstake"⟩,
    ⟨3, "Swap", "swap"⟩]

/-- JS `String.prototype.split` with a one-character separator, on the
character list. -/
def splitCharAux (c : Char) : List Char → List (List Char)
  | [] => [[]]
  | x :: xs =>
    match splitCharAux c xs with
    | [] => [[]]
    | g :: gs => if x = c then [] :: g :: gs else (x :: g) :: gs

/-- JS `s.split(c)` for a one-character separator. -/
def jsSplit (s : String) (c : Char) : List String :=
  (splitCharAux c s.data).map (fun l => String.mk l)

/-- JS `s.toLowerCase()` (ASCII, which covers the slugs involved). -/
def jsToLower (s : String) : String :=
  String.mk (s.data.map Char.toLower)

/-- The extraction in the `useMountEffect` of `YETH`:
`router.asPath.split('?')[1]` (when missing, the `?? {}` object has no
`split` method, so nothing further happens − modelled by `none`), then
`action.split('=')[1] ?? ''`. -/
def queryActionType (asPath : String) : Option String :=
  match (jsSplit asPath '?')[1]? with
  | none => none
  | some action => some (((jsSplit action '=')[1]?).getD "")

/-- The initially displayed tab of the `YETH` page as a function of
`router.asPath`: the state starts as `tabs[0]` and the mount effect
replaces it by `tabs[tabValue]` when `findIndex` of the lower-cased query
value among the slugs is not `-1`. -/
def initialTab (asPath : String) : Tab :=
  match queryActionType asPath with
  | none => tab0
  | some actionType =>
    if actionType = "" then tab0
    else
      match tabs.find? (fun tab => tab.slug == jsToLower actionType) with
      | some tab => tab
      | none => tab0

/-! ## Concrete inputs used to exercise the definitions -/

/-- A token with 18 decimals. -/
def exToken : TTokenInfo := ⟨"0xTOKEN", "TKN", 18⟩

/-- The worked example of the specification: an incentive worth 1000 USD. -/
def exIncentive : TIncentive :=
  { protocolName := "ProtocolA", value := 1000, amount := 1000000
    incentiveToken := some exToken, incentive := "0xTOKEN" }

/-- The worked example of the specification: `totalVotes = 100`,
`userVotes = 25`, one winning protocol offering `exIncentive`, nothing
claimed yet. -/
def exInput : AggregationInput :=
  { winners := ["0xPROTO"]
    protocols := [("0xPROTO", ⟨[exIncentive]⟩)]
    votesUsedRaw := 25
    votesUsedNormalized := some 25
    totalVotes := ⟨100, 100⟩
    claimedIncentives := some []
    address := "0xME"
    bootstrapAddress := "0xBOOT" }

/-- The single claimable record produced by `aggregate exInput`. -/
def exRecord : TClaimDetails := mkClaimDetails exInput "0xPROTO" exIncentive

/-- An incentive whose pro-rata value is not an integer. -/
def c2Incentive : TIncentive :=
  { protocolName := "ProtocolB", value := 1, amount := 10
    incentiveToken := some exToken, incentive := "0xTOKEN" }

/-- `totalVotes = 3`, `userVotes = 1`: the claimable value of
`c2Incentive` is `1/3`. -/
def c2Input : AggregationInput :=
  { winners := ["0xPROTO"]
    protocols := [("0xPROTO", ⟨[c2Incentive]⟩)]
    votesUsedRaw := 1
    votesUsedNormalized := some 1
    totalVotes := ⟨3, 3⟩
    claimedIncentives := some []
    address := "0xME"
    bootstrapAddress := "0xBOOT" }

/-- The single claimable record produced by `aggregate c2Input`. -/
def c2Record : TClaimDetails := mkClaimDetails c2Input "0xPROTO" c2Incentive

/-- A previously-claimed list already containing the id of `exIncentive`
under the winner `"0xPROTO"` for the claimant `"0xME"`. -/
def c3Claimed : List TClaimedIncentive := [⟨"0xPROTO-0xTOKEN-0xME"⟩]

/-- `exInput`, but with `exIncentive` already claimed. -/
def c3Input : AggregationInput := { exInput with claimedIncentives := some c3Claimed }

/-- `exInput` with zero votes cast in total. -/
def zeroVotesInput : AggregationInput := { exInput with totalVotes := ⟨0, 0⟩ }

/-- `exInput` with an extra winner that has no entry in the
incentive-history data. -/
def ghostInput : AggregationInput := { exInput with winners := ["0xPROTO", "0xGHOST"] }

/-- A small claimable record for exercising `onUpdateIncentive`. -/
def recA : TClaimDetails :=
  ⟨"idA", "ProtocolA", 1, ⟨0, 0⟩, none, true, ⟨"0xBOOT", "0xP", "0xI", "0xME"⟩⟩

/-- A second small claimable record for exercising `onUpdateIncentive`. -/
def recB : TClaimDetails :=
  ⟨"idB", "ProtocolB", 2, ⟨0, 0⟩, none, true, ⟨"0xBOOT", "0xQ", "0xJ", "0xME"⟩⟩

/-! ## Invariants of the aggregation -/

/-- A claimable record is sound for the input `inp`: it was built by
`mkClaimDetails` from an incentive of a winning protocol present in the
history, and its id is not among the claimed ids. -/
def RecordOk (inp : AggregationInput) (claimed : List TClaimedIncentive)
    (r : TClaimDetails) : Prop :=
  (∃ p pr inc, p ∈ inp.winners ∧ List.lookup p inp.protocols = some pr ∧
    inc ∈ pr.incentives ∧ r = mkClaimDetails inp p inc) ∧
  claimed.find? (fun item => item.id == r.id) = none

/-- Soundness of a whole `claimData` list: every record is sound and the
ids are pairwise distinct. -/
def DataOk (inp : AggregationInput) (claimed : List TClaimedIncentive)
    (data : List TClaimDetails) : Prop :=
  (∀ r ∈ data, RecordOk inp claimed r) ∧ (data.map TClaimDetails.id).Nodup

/-- Every step of a `foldl` preserves `P`, hence so does the whole fold. -/
theorem foldl_invariant {α β : Type} (P : β → Prop) (f : β → α → β) :
    ∀ (l : List α) (b : β), (∀ b' a, a ∈ l → P b' → P (f b' a)) → P b →
      P (l.foldl f b)
  | [], _, _, hb => hb
  | a :: t, b, h, hb =>
    foldl_invariant P f t (f b a)
      (fun b' a' ha' => h b' a' (List.mem_cons_of_mem a ha'))
      (h b a (List.mem_cons_self a t) hb)

/-- One iteration of the inner incentive loop preserves `DataOk`. -/
theorem processIncentive_ok (inp : AggregationInput) (claimed : List TClaimedIncentive)
    (p : String) (pr : TProtocolIncentives) (hp : p ∈ inp.winners)
    (hpr : List.lookup p inp.protocols = some pr) (inc : TIncentive)
    (hinc : inc ∈ pr.incentives) (acc : ℚ × List TClaimDetails)
    (hacc : DataOk inp claimed acc.2) :
    DataOk inp claimed (processIncentive inp claimed p acc inc).2 := by
  have hkey : (mkClaimDetails inp p inc).id = incentiveId p inc inp.address := rfl
  simp only [processIncentive]
  by_cases h1 : (acc.2.find? (fun item => item.id == incentiveId p inc inp.address)).isSome = true
  · rw [if_pos h1]; exact hacc
  · rw [if_neg h1]
    by_cases h2 : (claimed.find? (fun item => item.id == incentiveId p inc inp.address)).isSome = true
    · rw [if_pos h2]; exact hacc
    · rw [if_neg h2]
      have hfind : acc.2.find? (fun item => item.id == incentiveId p inc inp.address) = none :=
        Option.not_isSome_iff_eq_none.mp h1
      have hclaimnone : claimed.find? (fun item => item.id == incentiveId p inc inp.address) = none :=
        Option.not_isSome_iff_eq_none.mp h2
      have hnotmem : ∀ x ∈ acc.2, x.id ≠ incentiveId p inc inp.address := by
        intro x hx
        have := List.find?_eq_none.mp hfind x hx
        simpa using this
      constructor
      · intro r hr
        rcases List.mem_append.mp hr with hr | hr
        · exact hacc.1 r hr
        · have hre : r = mkClaimDetails inp p inc := by simpa using hr
          subst hre
          refine ⟨⟨p, pr, inc, hp, hpr, hinc, rfl⟩, ?_⟩
          rw [hkey]
          exact hclaimnone
      · have hids : ((acc.2 ++ [mkClaimDetails inp p inc]).map TClaimDetails.id)
            = acc.2.map TClaimDetails.id ++ [incentiveId p inc inp.address] := by
          simp [hkey]
        rw [hids, List.nodup_append]
        refine ⟨hacc.2, List.nodup_singleton _, ?_⟩
        intro a ha hb
        obtain ⟨x, hx, rfl⟩ := List.mem_map.mp ha
        have hxeq : x.id = incentiveId p inc inp.address := by simpa using hb
        exact hnotmem x hx hxeq

/-- One iteration of the outer winners loop preserves `DataOk`. -/
theorem processProtocol_ok (inp : AggregationInput) (claimed : List TClaimedIncentive)
    (acc : ℚ × List TClaimDetails) (p : String) (hp : p ∈ inp.winners)
    (hacc : DataOk inp claimed acc.2) :
    DataOk inp claimed (processProtocol inp claimed acc p).2 := by
  unfold processProtocol
  cases hpr : List.lookup p inp.protocols with
  | none => exact hacc
  | some pr =>
    exact foldl_invariant (fun b => DataOk inp claimed b.2)
      (processIncentive inp claimed p) pr.incentives acc
      (fun b a ha hb => processIncentive_ok inp claimed p pr hp hpr a ha b hb)
      hacc

/-- Every `claimData` list produced by the aggregation is sound. -/
theorem aggregate_ok (inp : AggregationInput) (claimed : List TClaimedIncentive)
    (tot : ℚ) (data : List TClaimDetails) (hcl : inp.claimedIncentives = some claimed)
    (h : aggregate inp = some (tot, data)) : DataOk inp claimed data := by
  simp only [aggregate, hcl] at h
  by_cases h0 : inp.totalVotes.raw = 0
  · rw [if_pos h0] at h; cases h
  · rw [if_neg h0] at h
    have hfold := foldl_invariant (fun b => DataOk inp claimed b.2)
      (processProtocol inp claimed) inp.winners (0, [])
      (fun b a ha hb => processProtocol_ok inp claimed b a ha hb)
      (by exact ⟨fun r hr => absurd hr (List.not_mem_nil r), List.nodup_nil⟩)
    have := h
    rw [Option.some_inj] at this
    rw [this] at hfold
    exact hfold

/-- The `claimedIncentives` input must be present for the aggregation to
produce a result. -/
theorem aggregate_some_claimed (inp : AggregationInput) (tot : ℚ)
    (data : List TClaimDetails) (h : aggregate inp = some (tot, data)) :
    ∃ claimed, inp.claimedIncentives = some claimed := by
  cases hc : inp.claimedIncentives with
  | none => unfold aggregate at h; rw [hc] at h; cases h
  | some c => exact ⟨c, rfl⟩

/-- Protocols whose lookup in the incentive history fails contribute
nothing to the winners fold. -/
theorem foldl_processProtocol_filter (inp : AggregationInput)
    (claimed : List TClaimedIncentive) :
    ∀ (l : List String) (acc : ℚ × List TClaimDetails),
      l.foldl (processProtocol inp claimed) acc
        = (l.filter (fun p => (List.lookup p inp.protocols).isSome)).foldl
            (processProtocol inp claimed) acc := by
  intro l
  induction l with
  | nil => intro acc; rfl
  | cons p t ih =>
    intro acc
    rw [List.foldl_cons, List.filter_cons]
    cases hp : List.lookup p inp.protocols with
    | none =>
      have hstep : processProtocol inp claimed acc p = acc := by
        simp [processProtocol, hp]
      simp only [hp, Option.isSome_none, Bool.false_eq_true, if_false]
      rw [hstep]
      exact ih acc
    | some pr =>
      simp only [hp, Option.isSome_some, if_true]
      rw [List.foldl_cons]
      exact ih (processProtocol inp claimed acc p)

/-- Evaluation of the aggregation on the specification's worked example. -/
theorem aggregate_exInput_eq : aggregate exInput = some (250, [exRecord]) := by
  simp [aggregate, exInput, processProtocol, processIncentive, exRecord, exIncentive,
    valueOfThis, mkClaimDetails, List.lookup]
  norm_num

/-- Evaluation of the aggregation on the `1/3`-share example. -/
theorem aggregate_c2Input_eq : aggregate c2Input = some (1 / 3, [c2Record]) := by
  simp [aggregate, c2Input, processProtocol, processIncentive, c2Record, c2Incentive,
    valueOfThis, mkClaimDetails, List.lookup]

/-- Evaluation of the aggregation when the only incentive was already
claimed: the claimable set is empty but the displayed total is still 250. -/
theorem aggregate_c3Input_eq : aggregate c3Input = some (250, []) := by
  simp [aggregate, c3Input, exInput, processProtocol, processIncentive, c3Claimed,
    valueOfThis, incentiveId, exIncentive, List.lookup]
  norm_num

/-- Unfolding of `onUpdateIncentive` on a non-empty list. -/
theorem onUpdateIncentive_cons (a : TClaimDetails) (l : List TClaimDetails)
    (id : String) (sel : Bool) :
    onUpdateIncentive (a :: l) id sel =
      if a.id = id then { a with isSelected := sel } :: l
      else a :: onUpdateIncentive l id sel := by
  by_cases ha : a.id = id
  · have hb : (a.id == id) = true := by simpa using ha
    simp [onUpdateIncentive, List.findIdx?_cons, hb, ha]
  · have hb : (a.id == id) = false := by simpa using ha
    simp only [onUpdateIncentive, List.findIdx?_cons, hb, Bool.false_eq_true, if_false,
      ha, ite_false, Nat.zero_add, List.findIdx?_succ]
    cases hf : l.findIdx? (fun item => item.id == id) with
    | none => rfl
    | some i =>
      simp only [Option.map_some']
      cases hg : l[i]? with
      | none => simp [hg, List.getElem?_cons_succ]
      | some r => simp [hg, List.getElem?_cons_succ, List.set_cons_succ]

/-! ## The claims -/

/-- C1: every record of the claimable set produced by the aggregation
(which only runs when the total votes cast are nonzero) carries the value
`incentive.value * userVotes / totalVotes` of an incentive of a winning
protocol, and that value is 0 whenever the user's votes are 0. -/
theorem c1_prorata_share (inp : AggregationInput) (tot : ℚ) (data : List TClaimDetails)
    (h : aggregate inp = some (tot, data)) :
    (∀ r ∈ data, ∃ p pr inc, p ∈ inp.winners ∧ List.lookup p inp.protocols = some pr ∧
      inc ∈ pr.incentives ∧
      r.value = inc.value * (inp.votesUsedNormalized.getD 0) / inp.totalVotes.normalized) ∧
    (inp.votesUsedNormalized.getD 0 = 0 → ∀ r ∈ data, r.value = 0) := by
  obtain ⟨claimed, hcl⟩ := aggregate_some_claimed inp tot data h
  have hok := aggregate_ok inp claimed tot data hcl h
  constructor
  · intro r hr
    obtain ⟨⟨p, pr, inc, hp, hpr, hinc, hre⟩, -⟩ := hok.1 r hr
    exact ⟨p, pr, inc, hp, hpr, hinc, by rw [hre]; rfl⟩
  · intro h0 r hr
    obtain ⟨⟨p, pr, inc, hp, hpr, hinc, hre⟩, -⟩ := hok.1 r hr
    rw [hre]
    show valueOfThis inp inc = 0
    rw [valueOfThis, h0, mul_zero, zero_div]

/-- C1, witnessed on the specification's example: `totalVotes = 100`,
`userVotes = 25`, `incentive.value = 1000` give a claimable value of 250. -/
theorem c1_prorata_share_witness :
    (∃ p pr inc, p ∈ exInput.winners ∧ List.lookup p exInput.protocols = some pr ∧
      inc ∈ pr.incentives ∧
      exRecord.value
        = inc.value * (exInput.votesUsedNormalized.getD 0) / exInput.totalVotes.normalized) ∧
    exRecord.value = 250 := by
  refine ⟨(c1_prorata_share exInput 250 [exRecord] aggregate_exInput_eq).1 exRecord
    (by simp), ?_⟩
  simp [exRecord, mkClaimDetails, valueOfThis, exInput, exIncentive]
  norm_num

/-- C2 is wrong about `valueOfThis`: on `c2Input` the aggregation produces
the claimable value `1/3`, a rational with denominator 3, which no
computation in "integer (fixed-point) arithmetic on raw token units" can
produce (the spec's own integer formula gives 0 there); only the token
amount is computed in integer arithmetic (`tdiv 10 3 = 3`). -/
theorem c2_integer_arithmetic_counterexample :
    aggregate c2Input = some (1 / 3, [c2Record]) ∧
    c2Record.value = 1 / 3 ∧
    ((1 : ℚ) / 3).den = 3 ∧
    c2Record.amount.raw
      = Int.tdiv (c2Incentive.amount * c2Input.votesUsedRaw) c2Input.totalVotes.raw ∧
    valueOfThisIntSpec 1 1 3 = 0 := by
  refine ⟨aggregate_c2Input_eq, ?_, by norm_num [Rat.den], rfl, by decide⟩
  simp [c2Record, mkClaimDetails, valueOfThis, c2Input, c2Incentive]

/-- C2 (amended): the claimable token amount is computed in integer
(`bigint`) arithmetic on raw token units before normalization
(`incentive.amount * votesUsed.raw / totalVotes.raw` with truncating
division); the claimable value is computed in JS `number` (floating-point)
arithmetic on the normalized values
(`incentive.value * votesUsed.normalized / totalVotes.normalized`),
modelled here by exact rational arithmetic. -/
theorem c2_amended_arithmetic (inp : AggregationInput) (tot : ℚ)
    (data : List TClaimDetails) (h : aggregate inp = some (tot, data)) :
    ∀ r ∈ data, ∃ p pr inc, p ∈ inp.winners ∧ List.lookup p inp.protocols = some pr ∧
      inc ∈ pr.incentives ∧
      r.amount.raw = Int.tdiv (inc.amount * inp.votesUsedRaw) inp.totalVotes.raw ∧
      r.amount.normalized = (r.amount.raw : ℚ) / (10 : ℚ) ^ (incentiveDecimals inc) ∧
      r.value = inc.value * (inp.votesUsedNormalized.getD 0) / inp.totalVotes.normalized := by
  intro r hr
  obtain ⟨claimed, hcl⟩ := aggregate_some_claimed inp tot data h
  have hok := aggregate_ok inp claimed tot data hcl h
  obtain ⟨⟨p, pr, inc, hp, hpr, hinc, hre⟩, -⟩ := hok.1 r hr
  subst hre
  exact ⟨p, pr, inc, hp, hpr, hinc, rfl, rfl, rfl⟩

/-- C2 (amended), witnessed on `c2Input`: the amount `3 = tdiv (10 * 1) 3`
is the integer raw-unit quotient while the value is the rational `1/3`. -/
theorem c2_amended_arithmetic_witness :
    (∃ p pr inc, p ∈ c2Input.winners ∧ List.lookup p c2Input.protocols = some pr ∧
      inc ∈ pr.incentives ∧
      c2Record.amount.raw = Int.tdiv (inc.amount * c2Input.votesUsedRaw) c2Input.totalVotes.raw ∧
      c2Record.amount.normalized
        = (c2Record.amount.raw : ℚ) / (10 : ℚ) ^ (incentiveDecimals inc) ∧
      c2Record.value
        = inc.value * (c2Input.votesUsedNormalized.getD 0) / c2Input.totalVotes.normalized) ∧
    c2Record.amount.raw = 3 := by
  refine ⟨c2_amended_arithmetic c2Input (1 / 3) [c2Record] aggregate_c2Input_eq c2Record
    (by simp), ?_⟩
  simp [c2Record, mkClaimDetails, amountOfThis, toNormalizedBN, c2Input, c2Incentive]
  decide

/-- C3: an incentive whose composite id is in the previously-claimed list
never appears in the claimable set, and processing it adds its pro-rata
value to the running total while leaving `claimData` unchanged. -/
theorem c3_claimed_excluded_but_counted (inp : AggregationInput)
    (claimed : List TClaimedIncentive) (hcl : inp.claimedIncentives = some claimed) :
    (∀ tot data, aggregate inp = some (tot, data) → ∀ r ∈ data, ∀ c ∈ claimed, c.id ≠ r.id) ∧
    (∀ p inc acc,
      (claimed.find? (fun item => item.id == incentiveId p inc inp.address)).isSome = true →
      acc.2.find? (fun item => item.id == incentiveId p inc inp.address) = none →
      processIncentive inp claimed p acc inc = (acc.1 + valueOfThis inp inc, acc.2)) := by
  constructor
  · intro tot data h r hr c hc
    have hok := aggregate_ok inp claimed tot data hcl h
    have hnone := (hok.1 r hr).2
    have := List.find?_eq_none.mp hnone c hc
    simpa using this
  · intro p inc acc hcfind hdfind
    simp only [processIncentive, hdfind, Option.isSome_none, Bool.false_eq_true, if_false]
    rw [if_pos hcfind]

/-- C3, witnessed on `c3Input`: with the single incentive already claimed,
processing it only adds its value 250 to the total, and the aggregation's
claimable set is empty while the displayed total is 250. -/
theorem c3_claimed_excluded_but_counted_witness :
    processIncentive c3Input c3Claimed "0xPROTO" (0, []) exIncentive
      = (0 + valueOfThis c3Input exIncentive, []) ∧
    aggregate c3Input = some (250, []) := by
  refine ⟨(c3_claimed_excluded_but_counted c3Input c3Claimed rfl).2 "0xPROTO" exIncentive
    (0, []) (by decide) rfl, aggregate_c3Input_eq⟩

/-- C4: the list of ids of the claimable records produced by the
aggregation has no duplicates. -/
theorem c4_no_duplicate_ids (inp : AggregationInput) (tot : ℚ)
    (data : List TClaimDetails) (h : aggregate inp = some (tot, data)) :
    (data.map TClaimDetails.id).Nodup := by
  obtain ⟨claimed, hcl⟩ := aggregate_some_claimed inp tot data h
  exact (aggregate_ok inp claimed tot data hcl h).2

/-- C4, witnessed on the worked example. -/
theorem c4_no_duplicate_ids_witness : (([exRecord]).map TClaimDetails.id).Nodup :=
  c4_no_duplicate_ids exInput 250 [exRecord] aggregate_exInput_eq

/-- C5: the aggregation returns early (no state update) when
`totalVotes.raw === 0n`, so on nonnegative vote totals every run that does
compute shares has `totalVotes.raw > 0` — the pro-rata divisions never
divide by zero. -/
theorem c5_no_division_by_zero (inp : AggregationInput)
    (h : 0 ≤ inp.totalVotes.raw) :
    (inp.totalVotes.raw = 0 → aggregate inp = none) ∧
    (∀ tot data, aggregate inp = some (tot, data) → 0 < inp.totalVotes.raw) := by
  constructor
  · intro h0
    cases hc : inp.claimedIncentives with
    | none => simp [aggregate, hc]
    | some c => simp [aggregate, hc, h0]
  · intro tot data hagg
    rcases h.lt_or_eq with hlt | heq
    · exact hlt
    · exfalso
      have h0 : inp.totalVotes.raw = 0 := heq.symm
      cases hc : inp.claimedIncentives with
      | none => simp [aggregate, hc] at hagg
      | some c => simp [aggregate, hc, h0] at hagg

/-- C5, witnessed: zero total votes short-circuit the aggregation, and the
successful run on `exInput` indeed has a positive vote total. -/
theorem c5_no_division_by_zero_witness :
    aggregate zeroVotesInput = none ∧ (0 : Int) < exInput.totalVotes.raw := by
  constructor
  · exact (c5_no_division_by_zero zeroVotesInput (by decide)).1 rfl
  · exact (c5_no_division_by_zero exInput (by decide)).2 250 [exRecord] aggregate_exInput_eq

/-- C6: the batch submitted by `onClaim` is exactly the sequence of
`(target, callData)` pairs of the incentives whose `isSelected` flag is
true, in list order; unselected incentives contribute no call
(`onClaimBatch`, translated from the source, coincides with
`batchOfSelected`, written from the specification's words). -/
theorem c6_batch_refines_selection :
    ∀ l : List TClaimDetails, onClaimBatch l = batchOfSelected l
  | [] => rfl
  | a :: t => by
    have ht := c6_batch_refines_selection t
    cases ha : a.isSelected with
    | false =>
      show (((a :: t).filter (fun inc => inc.isSelected)).map (fun inc => inc.multicall))
        = batchOfSelected (a :: t)
      rw [List.filter_cons]
      simp only [ha, Bool.false_eq_true, if_false, batchOfSelected]
      exact ht
    | true =>
      show (((a :: t).filter (fun inc => inc.isSelected)).map (fun inc => inc.multicall))
        = batchOfSelected (a :: t)
      rw [List.filter_cons]
      simp only [ha, if_true, List.map_cons, batchOfSelected]
      exact congrArg (List.cons a.multicall) ht

/-- C7: a winning protocol with no entry in the incentive-history data is
skipped — its loop iteration leaves the accumulator unchanged, and the
whole aggregation equals the aggregation over only the winners that do
have history entries. -/
theorem c7_missing_protocols_skipped (inp : AggregationInput) :
    (∀ claimed acc p, List.lookup p inp.protocols = none →
      processProtocol inp claimed acc p = acc) ∧
    aggregate inp = aggregate { inp with
      winners := inp.winners.filter (fun p => (List.lookup p inp.protocols).isSome) } := by
  constructor
  · intro claimed acc p hp
    simp [processProtocol, hp]
  · cases hc : inp.claimedIncentives with
    | none => simp [aggregate, hc]
    | some c =>
      by_cases h0 : inp.totalVotes.raw = 0
      · simp [aggregate, hc, h0]
      · simp only [aggregate, hc, h0, if_false]
        rw [foldl_processProtocol_filter inp c inp.winners (0, [])]
        rfl

/-- C7, witnessed on `ghostInput`, whose winner `"0xGHOST"` has no
incentive-history entry. -/
theorem c7_missing_protocols_skipped_witness :
    processProtocol ghostInput [] (0, []) "0xGHOST" = (0, []) ∧
    aggregate ghostInput = aggregate { ghostInput with
      winners := ghostInput.winners.filter
        (fun p => (List.lookup p ghostInput.protocols).isSome) } := by
  refine ⟨(c7_missing_protocols_skipped ghostInput).1 [] (0, []) "0xGHOST" (by decide),
    (c7_missing_protocols_skipped ghostInput).2⟩

/-- C8: the URL query parameter selects the initially displayed tab: when
the extracted query value matches a tab slug (case-insensitively, as the
source lower-cases it) that tab is shown initially, and when no slug
matches — including when there is no query at all — the initial tab is the
default Deposit tab `tabs[0]`. -/
theorem c8_initial_tab_from_query (asPath : String) :
    (queryActionType asPath = none → initialTab asPath = tab0) ∧
    (∀ v, queryActionType asPath = some v →
      (∀ t ∈ tabs, jsToLower v = t.slug → initialTab asPath = t) ∧
      ((∀ t ∈ tabs, jsToLower v ≠ t.slug) → initialTab asPath = tab0)) := by
  constructor
  · intro h
    simp [initialTab, h]
  · intro v hv
    constructor
    · intro t ht hslug
      have hne : ¬ v = "" := by
        intro h
        subst h
        simp [tabs, tab0] at ht
        rcases ht with rfl | rfl | rfl | rfl <;> exact absurd hslug (by decide)
      have hfind : tabs.find? (fun tab => tab.slug == jsToLower v) = some t := by
        simp [tabs, tab0] at ht
        rcases ht with rfl | rfl | rfl | rfl <;>
          · simp only [hslug]
            decide
      simp [initialTab, hv, hne, hfind]
    · intro hall
      by_cases hv0 : v = ""
      · simp [initialTab, hv, hv0]
      · have hnone : tabs.find? (fun tab => tab.slug == jsToLower v) = none := by
          rw [List.find?_eq_none]
          intro t ht
          simp only [beq_iff_eq]
          exact fun h => hall t ht h.symm
        simp [initialTab, hv, hv0, hnone]

/-- C8, witnessed: `?action=swap` selects the Swap tab, `?action=nope`
and a path without a query both leave the Deposit tab. -/
theorem c8_initial_tab_from_query_witness :
    initialTab "/yeth?action=swap" = ⟨3, "Swap", "swap"⟩ ∧
    initialTab "/yeth?action=nope" = tab0 ∧
    initialTab "/yeth" = tab0 := by
  refine ⟨((c8_initial_tab_from_query "/yeth?action=swap").2 "swap" (by decide)).1
      ⟨3, "Swap", "swap"⟩ (by decide) (by decide),
    ((c8_initial_tab_from_query "/yeth?action=nope").2 "nope" (by decide)).2 ?_,
    (c8_initial_tab_from_query "/yeth").1 (by decide)⟩
  intro t ht
  fin_cases ht <;> decide

/-- C9: every record of a freshly derived claimable set has
`isSelected = true`, so the modal's selected-only total coincides with the
sum of all claimable values. -/
theorem c9_fresh_records_selected (inp : AggregationInput) (tot : ℚ)
    (data : List TClaimDetails) (h : aggregate inp = some (tot, data)) :
    (∀ r ∈ data, r.isSelected = true) ∧ selectedTotalToClaim data = totalToClaim data := by
  obtain ⟨claimed, hcl⟩ := aggregate_some_claimed inp tot data h
  have hok := aggregate_ok inp claimed tot data hcl h
  have hsel : ∀ r ∈ data, r.isSelected = true := by
    intro r hr
    obtain ⟨⟨p, pr, inc, hp, hpr, hinc, hre⟩, -⟩ := hok.1 r hr
    rw [hre]
    rfl
  refine ⟨hsel, ?_⟩
  have hfil : data.filter (fun inc => inc.isSelected) = data := by
    rw [List.filter_eq_self]
    intro a ha
    simpa using hsel a ha
  rw [selectedTotalToClaim, totalToClaim, hfil]

/-- C9, witnessed on the worked example. -/
theorem c9_fresh_records_selected_witness :
    exRecord.isSelected = true ∧
    selectedTotalToClaim [exRecord] = totalToClaim [exRecord] := by
  have hmain := c9_fresh_records_selected exInput 250 [exRecord] aggregate_exInput_eq
  exact ⟨hmain.1 exRecord (by simp), hmain.2⟩

/-- C10: `onUpdateIncentive` on a list with no record of the given id
returns the list unchanged; on a list containing the id (before which no
other record has that id) it flips only that record's `isSelected` flag,
leaving its other fields and every other record unchanged. -/
theorem c10_update_frame (id : String) (sel : Bool) :
    (∀ l : List TClaimDetails, (∀ r ∈ l, r.id ≠ id) → onUpdateIncentive l id sel = l) ∧
    (∀ (l₁ : List TClaimDetails) (r : TClaimDetails) (l₂ : List TClaimDetails),
      r.id = id → (∀ x ∈ l₁, x.id ≠ id) →
      onUpdateIncentive (l₁ ++ r :: l₂) id sel
        = l₁ ++ { r with isSelected := sel } :: l₂) := by
  constructor
  · intro l
    induction l with
    | nil => intro _; rfl
    | cons a t ih =>
      intro hl
      rw [onUpdateIncentive_cons, if_neg (hl a (List.mem_cons_self a t)),
        ih (fun r hr => hl r (List.mem_cons_of_mem a hr))]
  · intro l₁
    induction l₁ with
    | nil =>
      intro r l₂ hr _
      simp only [List.nil_append]
      rw [onUpdateIncentive_cons, if_pos hr]
    | cons a t ih =>
      intro r l₂ hr hl
      simp only [List.cons_append]
      rw [onUpdateIncentive_cons, if_neg (hl a (List.mem_cons_self a t)),
        ih r l₂ hr (fun x hx => hl x (List.mem_cons_of_mem a hx))]

/-- C10, witnessed: updating an absent id is the identity, and updating
`"idB"` in `[recA, recB]` changes only `recB`'s flag. -/
theorem c10_update_frame_witness :
    onUpdateIncentive [recA] "idZ" false = [recA] ∧
    onUpdateIncentive [recA, recB] "idB" false
      = [recA, { recB with isSelected := false }] := by
  refine ⟨(c10_update_frame "idZ" false).1 [recA] (by decide), ?_⟩
  have h := (c10_update_frame "idB" false).2 [recA] recB [] (by decide) (by decide)
  simpa using h

end YEth
